import Mathlib

/-!
# IAM policy binding reconciliation (`plugin/iamutil/iam_policy.go`)

A shallow embedding of `Policy.ChangeBindings`, `Policy.AddBindings`,
`Policy.RemoveBindings` and `BindingExists`.

Conventions of the embedding

* A Go `*Condition` is an address: `none` is the nil pointer and `some a` the
  pointer to address `a`.  Go's `==` on two `*Condition` values compares the
  addresses, which is Lean's `=` on `CondPtr`.  The pointee is found in a
  `Heap`; the reconciliation code never reads it.
* A Go `*PolicyDelta` argument is an `Option PolicyDelta`; reading a field of
  the nil pointer is a run-time panic, modelled by the result `none`.
* The elements of `Policy.Bindings` are taken to be non-nil, and so is the
  receiver.
-/

namespace Iamutil

/-! ## `util.StringSet` -/

/-- Modelled from the spec: `util.StringSet` of package `plugin/util`, a Go
`map[string]struct{}`, which is not among the sources.  It is "a true set
abstraction (insertion of duplicates is a no-op, removal of a non-member is a
no-op)".  The keys are kept as a duplicate-free list; the order of the list is
the order in which `range` and `ToSlice` visit the keys. -/
structure StringSet where
  elems : List String
  nodup : elems.Nodup

namespace StringSet

/-- The set made by `make(StringSet)`. -/
def empty : StringSet := ⟨[], List.nodup_nil⟩

/-- Modelled from the spec: `StringSet.Includes`, key presence. -/
def Includes (ss : StringSet) (v : String) : Bool := decide (v ∈ ss.elems)

/-- Modelled from the spec: `StringSet.Add`; adding a present key is a no-op. -/
def Add (ss : StringSet) (v : String) : StringSet :=
  if h : v ∈ ss.elems then ss
  else ⟨ss.elems ++ [v], List.Nodup.append ss.nodup (List.nodup_singleton v)
    (by
      intro x hx hx1
      rw [List.mem_singleton] at hx1
      exact h (hx1 ▸ hx))⟩

/-- The builtin `delete(ss, v)`; deleting an absent key is a no-op. -/
def Delete (ss : StringSet) (v : String) : StringSet :=
  ⟨ss.elems.filter (fun x => decide (x ≠ v)), ss.nodup.filter _⟩

/-- Modelled from the spec: `StringSet.ToSlice`, the keys as a slice. -/
def ToSlice (ss : StringSet) : List String := ss.elems

/-- The builtin `len(ss)`. -/
def len (ss : StringSet) : Nat := ss.elems.length

end StringSet

/-- Modelled from the spec: `util.ToSet`, the set of the values of a slice
(duplicates collapse). -/
def ToSet (values : List String) : StringSet :=
  values.foldl StringSet.Add StringSet.empty

/-! ## Data model -/

/-- The pointee of a `*Condition`. -/
structure Condition where
  Title : String
  Description : String
  Expression : String
deriving DecidableEq, Repr

/-- A `*Condition`: `none` is nil, `some a` points at address `a`. -/
abbrev CondPtr := Option Nat

/-- The memory holding the `Condition` values pointed at. -/
abbrev Heap := Nat → Condition

/-- Dereference of a `*Condition`, nil giving `none`. -/
def loadCondition (h : Heap) (c : CondPtr) : Option Condition := c.map h

structure Binding where
  Members : List String
  Role : String
  Condition : CondPtr
deriving DecidableEq, Repr

structure Policy where
  Bindings : List Binding
  Etag : String
  Version : Int
deriving DecidableEq, Repr

structure PolicyDelta where
  Roles : StringSet
  Email : String
  Condition : CondPtr

/-- The format `fmt.Sprintf(ServiceAccountMemberTmpl, email)`. -/
def ServiceAccountMemberTmpl (email : String) : String := "serviceAccount:" ++ email

/-! ## `BindingExists` -/

/-- `BindingExists`: some existing binding has the same role and the same
condition pointer. -/
def BindingExists (existingBindings : List Binding) (binding : Binding) : Bool :=
  match existingBindings with
  | [] => false
  | bind :: rest =>
    if bind.Role = binding.Role ∧ bind.Condition = binding.Condition then true
    else BindingExists rest binding

/-! ## `ChangeBindings` -/

/-- The variables the loop over `p.Bindings` updates. -/
structure LoopState where
  changed : Bool
  newBindings : List Binding
  alreadyAdded : List Binding

/-- The `if toAdd != nil` block of the loop body: the new values of `changed`,
`alreadyAdded` and `memberSet`. -/
def addPass (toAdd : Option PolicyDelta) (toAddMem : String) (bind : Binding)
    (changed : Bool) (alreadyAdded : List Binding) (memberSet : StringSet) :
    Bool × List Binding × StringSet :=
  match toAdd with
  | none => (changed, alreadyAdded, memberSet)
  | some a =>
    if a.Roles.Includes bind.Role = true ∧ a.Condition = bind.Condition then
      (true, alreadyAdded ++ [bind], memberSet.Add toAddMem)
    else (changed, alreadyAdded, memberSet)

/-- The `if toRemove != nil` block of the loop body: the new values of
`changed` and `memberSet`.  The right operand of `&&` reads `toAdd.Condition`,
which panics when `toAdd` is nil; it is evaluated only when the left operand
is true. -/
def removePass (toAdd toRemove : Option PolicyDelta) (toRemoveMem : String) (bind : Binding)
    (changed : Bool) (memberSet : StringSet) : Option (Bool × StringSet) :=
  match toRemove with
  | none => some (changed, memberSet)
  | some r =>
    if r.Roles.Includes bind.Role = true then
      match toAdd with
      | none => none
      | some a =>
        if a.Condition = bind.Condition then
          if memberSet.Includes toRemoveMem = true then
            some (true, memberSet.Delete toRemoveMem)
          else some (changed, memberSet)
        else some (changed, memberSet)
    else some (changed, memberSet)

/-- One iteration of `for _, bind := range p.Bindings`. -/
def loopBody (toAdd toRemove : Option PolicyDelta) (toAddMem toRemoveMem : String)
    (st : LoopState) (bind : Binding) : Option LoopState :=
  let memberSet := ToSet bind.Members
  match addPass toAdd toAddMem bind st.changed st.alreadyAdded memberSet with
  | (changed1, alreadyAdded1, memberSet1) =>
    match removePass toAdd toRemove toRemoveMem bind changed1 memberSet1 with
    | none => none
    | some (changed2, memberSet2) =>
      if memberSet2.len > 0 then
        some ⟨changed2,
          st.newBindings ++ [⟨memberSet2.ToSlice, bind.Role, bind.Condition⟩],
          alreadyAdded1⟩
      else some ⟨changed2, st.newBindings, alreadyAdded1⟩

/-- The loop `for _, bind := range p.Bindings`. -/
def loopBindings (toAdd toRemove : Option PolicyDelta) (toAddMem toRemoveMem : String) :
    List Binding → LoopState → Option LoopState
  | [], st => some st
  | bind :: rest, st =>
    match loopBody toAdd toRemove toAddMem toRemoveMem st bind with
    | none => none
    | some st1 => loopBindings toAdd toRemove toAddMem toRemoveMem rest st1

/-- The loop `for r := range toAdd.Roles`, over the roles in the order of
iteration; the state is `(changed, newBindings)`. -/
def synthRoles (toAddMem : String) (cond : CondPtr) (alreadyAdded : List Binding) :
    List String → Bool × List Binding → Bool × List Binding
  | [], acc => acc
  | r :: rest, acc =>
    let binding : Binding := ⟨[toAddMem], r, cond⟩
    if BindingExists alreadyAdded binding = false then
      synthRoles toAddMem cond alreadyAdded rest (true, acc.2 ++ [binding])
    else synthRoles toAddMem cond alreadyAdded rest acc

/-- `Policy.ChangeBindings`; `none` is a nil-pointer panic. -/
def ChangeBindings (p : Policy) (toAdd toRemove : Option PolicyDelta) :
    Option (Bool × Policy) :=
  if toAdd.isNone = true ∧ toRemove.isNone = true then some (false, p)
  else
    let toAddMem : String :=
      match toAdd with
      | some a => ServiceAccountMemberTmpl a.Email
      | none => ""
    let toRemoveMem : String :=
      match toRemove with
      | some r => ServiceAccountMemberTmpl r.Email
      | none => ""
    match loopBindings toAdd toRemove toAddMem toRemoveMem p.Bindings ⟨false, [], []⟩ with
    | none => none
    | some st =>
      let fin : Bool × List Binding :=
        match toAdd with
        | some a =>
          synthRoles toAddMem a.Condition st.alreadyAdded a.Roles.elems
            (st.changed, st.newBindings)
        | none => (st.changed, st.newBindings)
      if fin.1 = true then some (true, ⟨fin.2, p.Etag, p.Version⟩)
      else some (false, p)

/-- `Policy.AddBindings`. -/
def AddBindings (p : Policy) (toAdd : Option PolicyDelta) : Option (Bool × Policy) :=
  ChangeBindings p toAdd none

/-- `Policy.RemoveBindings`. -/
def RemoveBindings (p : Policy) (toRemove : Option PolicyDelta) : Option (Bool × Policy) :=
  ChangeBindings p none toRemove

/-- A one-key role set. -/
def StringSet.single (r : String) : StringSet := ⟨[r], List.nodup_singleton r⟩

/-! ## The loop in closed form

With `toAdd` present no field of a nil pointer is read, and each binding is
handled on its own; the functions below name the pieces of one iteration. -/

/-- The guard of the add pass holds for `b`. -/
def addHit (a : PolicyDelta) (b : Binding) : Bool :=
  decide (a.Roles.Includes b.Role = true ∧ a.Condition = b.Condition)

/-- The value of `memberSet` after the add pass. -/
def membersAfterAdd (a : PolicyDelta) (b : Binding) : StringSet :=
  if addHit a b = true then (ToSet b.Members).Add (ServiceAccountMemberTmpl a.Email)
  else ToSet b.Members

/-- The remove pass deletes its member from `b`. -/
def remHit (a : PolicyDelta) (tr : Option PolicyDelta) (b : Binding) : Bool :=
  match tr with
  | none => false
  | some r =>
    decide (r.Roles.Includes b.Role = true ∧ a.Condition = b.Condition ∧
      (membersAfterAdd a b).Includes (ServiceAccountMemberTmpl r.Email) = true)

/-- The value of `memberSet` after both passes. -/
def membersAfter (a : PolicyDelta) (tr : Option PolicyDelta) (b : Binding) : StringSet :=
  match tr with
  | none => membersAfterAdd a b
  | some r =>
    if remHit a (some r) b = true then
      (membersAfterAdd a b).Delete (ServiceAccountMemberTmpl r.Email)
    else membersAfterAdd a b

/-- What one iteration appends to `newBindings`. -/
def emitted (a : PolicyDelta) (tr : Option PolicyDelta) (b : Binding) : List Binding :=
  if (membersAfter a tr b).len > 0 then
    [⟨(membersAfter a tr b).ToSlice, b.Role, b.Condition⟩]
  else []

/-- What the whole loop appends to `newBindings`. -/
def kept (a : PolicyDelta) (tr : Option PolicyDelta) : List Binding → List Binding
  | [] => []
  | b :: bs => emitted a tr b ++ kept a tr bs

/-- The binding the synthesis loop builds for role `r`. -/
def freshBinding (a : PolicyDelta) (r : String) : Binding :=
  ⟨[ServiceAccountMemberTmpl a.Email], r, a.Condition⟩

/-- The role `r` gets a synthesized binding. -/
def needsFresh (a : PolicyDelta) (bs : List Binding) (r : String) : Bool :=
  !BindingExists (bs.filter (addHit a)) (freshBinding a r)

/-- What the synthesis loop appends to `newBindings`. -/
def synthesized (a : PolicyDelta) (bs : List Binding) : List Binding :=
  (a.Roles.elems.filter (needsFresh a bs)).map (freshBinding a)

/-- The final value of `changed` when `toAdd` is present. -/
def changedFlag (a : PolicyDelta) (tr : Option PolicyDelta) (bs : List Binding) : Bool :=
  bs.any (fun b => addHit a b || remHit a tr b) || a.Roles.elems.any (needsFresh a bs)

/-- The member string of an optional delta, as computed before the loop. -/
def memOf (d : Option PolicyDelta) : String :=
  match d with
  | some x => ServiceAccountMemberTmpl x.Email
  | none => ""

/-- The binding `b` has identity `(r, c)`: role `r` and condition pointer `c`. -/
def hasKey (r : String) (c : CondPtr) (b : Binding) : Bool :=
  decide (b.Role = r ∧ b.Condition = c)

/-- No two bindings of `bs` have the same role and structurally equal
conditions (equal pointees in the heap `h`, or both nil). -/
def uniqueKeys (h : Heap) (bs : List Binding) : Prop :=
  bs.Pairwise (fun x y =>
    ¬ (x.Role = y.Role ∧ loadCondition h x.Condition = loadCondition h y.Condition))

/-- No two bindings of `bs` have the same role and the same condition pointer. -/
def uniquePtrKeys (bs : List Binding) : Prop :=
  bs.Pairwise (fun x y => ¬ (x.Role = y.Role ∧ x.Condition = y.Condition))

/-- The policy of the scenarios: `roles/editor` held by `a@x.iam`, Etag `E1`. -/
def editorPolicy : Policy :=
  ⟨[⟨["serviceAccount:a@x.iam"], "roles/editor", none⟩], "E1", 0⟩

/-- A heap in which the addresses 1 and 2 hold two copies of one condition. -/
def twoCopies : Heap := fun _ =>
  ⟨"expiry", "temporary access", "request.time < timestamp(\"2030-01-01T00:00:00Z\")"⟩

/-- The binding `b` has role `r` and a condition structurally equal to the one
`c` points at (equal pointees in the heap `h`, or both nil). -/
def hasStructKey (h : Heap) (r : String) (c : CondPtr) (b : Binding) : Bool :=
  decide (b.Role = r ∧ loadCondition h b.Condition = loadCondition h c)

/-- The identity of a binding: its role and its condition pointer. -/
def bindingKey (b : Binding) : String × CondPtr := (b.Role, b.Condition)

/-- A policy without bindings. -/
def emptyPolicy (etag : String) (version : Int) : Policy := ⟨[], etag, version⟩

/-! ## Set lemmas -/

theorem StringSet.mem_Add (ss : StringSet) (v x : String) :
    x ∈ (ss.Add v).elems ↔ x ∈ ss.elems ∨ x = v := by
  unfold StringSet.Add
  split
  · rename_i h
    constructor
    · intro hx; exact Or.inl hx
    · rintro (hx | hx)
      · exact hx
      · exact hx ▸ h
  · simp

theorem StringSet.mem_Delete (ss : StringSet) (v x : String) :
    x ∈ (ss.Delete v).elems ↔ x ∈ ss.elems ∧ x ≠ v := by
  simp [StringSet.Delete]

theorem StringSet.Includes_iff (ss : StringSet) (v : String) :
    ss.Includes v = true ↔ v ∈ ss.elems := by
  simp [StringSet.Includes]

theorem mem_foldl_Add (vs : List String) (s : StringSet) (x : String) :
    x ∈ (vs.foldl StringSet.Add s).elems ↔ x ∈ s.elems ∨ x ∈ vs := by
  induction vs generalizing s with
  | nil => simp
  | cons v vs ih =>
    simp only [List.foldl_cons, ih, StringSet.mem_Add, List.mem_cons]
    tauto

theorem mem_ToSet (vs : List String) (x : String) : x ∈ (ToSet vs).elems ↔ x ∈ vs := by
  simp [ToSet, mem_foldl_Add, StringSet.empty]

theorem ToSet_len_pos (vs : List String) : (ToSet vs).len > 0 ↔ vs ≠ [] := by
  unfold StringSet.len
  rw [gt_iff_lt, List.length_pos]
  constructor
  · intro h hv
    subst hv
    exact h rfl
  · intro h he
    cases vs with
    | nil => exact h rfl
    | cons v vs =>
      have : v ∈ (ToSet (v :: vs)).elems := (mem_ToSet _ _).2 (List.mem_cons_self _ _)
      rw [he] at this
      exact List.not_mem_nil _ this

/-! ## Characterisation of the loops -/

theorem BindingExists_iff (l : List Binding) (c : Binding) :
    BindingExists l c = true ↔ ∃ b ∈ l, b.Role = c.Role ∧ b.Condition = c.Condition := by
  induction l with
  | nil => simp [BindingExists]
  | cons b l ih =>
    unfold BindingExists
    by_cases h : b.Role = c.Role ∧ b.Condition = c.Condition
    · simp only [h, and_self, if_true, List.mem_cons, true_iff]
      exact ⟨b, Or.inl rfl, h⟩
    · rw [if_neg h, ih]
      constructor
      · rintro ⟨x, hx, hx2⟩
        exact ⟨x, List.mem_cons_of_mem _ hx, hx2⟩
      · rintro ⟨x, hx, hx2⟩
        rcases List.mem_cons.1 hx with rfl | hx
        · exact absurd hx2 h
        · exact ⟨x, hx, hx2⟩

theorem addPass_some (a : PolicyDelta) (b : Binding) (c : Bool) (aa : List Binding) :
    addPass (some a) (ServiceAccountMemberTmpl a.Email) b c aa (ToSet b.Members) =
      (c || addHit a b, aa ++ (if addHit a b = true then [b] else []), membersAfterAdd a b) := by
  unfold addPass membersAfterAdd addHit
  by_cases h1 : a.Roles.Includes b.Role = true ∧ a.Condition = b.Condition
  · simp [h1]
  · simp [h1]

theorem removePass_some (a : PolicyDelta) (tr : Option PolicyDelta) (b : Binding) (c : Bool) :
    removePass (some a) tr (memOf tr) b c (membersAfterAdd a b) =
      some (c || remHit a tr b, membersAfter a tr b) := by
  unfold removePass membersAfter remHit memOf
  cases tr with
  | none => simp
  | some r =>
    by_cases h2 : r.Roles.Includes b.Role = true <;>
    by_cases h3 : a.Condition = b.Condition <;>
    by_cases h4 : (membersAfterAdd a b).Includes (ServiceAccountMemberTmpl r.Email) = true <;>
    simp [h2, h3, h4]

theorem loopBody_some (a : PolicyDelta) (tr : Option PolicyDelta) (st : LoopState)
    (b : Binding) :
    loopBody (some a) tr (ServiceAccountMemberTmpl a.Email) (memOf tr) st b =
      some ⟨st.changed || (addHit a b || remHit a tr b),
        st.newBindings ++ emitted a tr b,
        st.alreadyAdded ++ (if addHit a b = true then [b] else [])⟩ := by
  unfold loopBody
  simp only [addPass_some, removePass_some]
  unfold emitted
  by_cases h : (membersAfter a tr b).len > 0
  · simp [h, Bool.or_assoc]
  · simp [h, Bool.or_assoc]

theorem loopBindings_some (a : PolicyDelta) (tr : Option PolicyDelta) (bs : List Binding)
    (st : LoopState) :
    loopBindings (some a) tr (ServiceAccountMemberTmpl a.Email) (memOf tr) bs st =
      some ⟨st.changed || bs.any (fun b => addHit a b || remHit a tr b),
        st.newBindings ++ kept a tr bs,
        st.alreadyAdded ++ bs.filter (addHit a)⟩ := by
  induction bs generalizing st with
  | nil => simp [loopBindings, kept]
  | cons b bs ih =>
    unfold loopBindings
    rw [loopBody_some]
    simp only [ih, kept, List.any_cons, List.filter_cons, Bool.or_assoc, List.append_assoc]
    by_cases h : addHit a b = true
    · simp [h]
    · simp [h]

theorem synthRoles_eq (mem : String) (cond : CondPtr) (aa : List Binding) (roles : List String)
    (acc : Bool × List Binding) :
    synthRoles mem cond aa roles acc =
      (acc.1 || roles.any (fun r => !BindingExists aa ⟨[mem], r, cond⟩),
        acc.2 ++ (roles.filter (fun r => !BindingExists aa ⟨[mem], r, cond⟩)).map
          (fun r => ⟨[mem], r, cond⟩)) := by
  induction roles generalizing acc with
  | nil => simp [synthRoles]
  | cons r roles ih =>
    unfold synthRoles
    by_cases h : BindingExists aa ⟨[mem], r, cond⟩ = false
    · simp [h, ih]
    · simp only [Bool.not_eq_false] at h
      simp [h, ih]

/-- With an add delta present the call never panics; its result in closed form. -/
theorem ChangeBindings_some (p : Policy) (a : PolicyDelta) (tr : Option PolicyDelta) :
    ChangeBindings p (some a) tr =
      some (if changedFlag a tr p.Bindings = true then
        (true, ⟨kept a tr p.Bindings ++ synthesized a p.Bindings, p.Etag, p.Version⟩)
      else (false, p)) := by
  unfold ChangeBindings
  have hm : (match tr with
      | some r => ServiceAccountMemberTmpl r.Email
      | none => "") = memOf tr := rfl
  simp only [Option.isNone_some, Bool.false_eq_true, false_and, if_false, hm,
    loopBindings_some, synthRoles_eq, Bool.false_or, List.nil_append]
  unfold changedFlag synthesized needsFresh freshBinding
  split <;> rfl

theorem loopBindings_removeOnly (r : PolicyDelta) (m1 m2 : String) (bs : List Binding)
    (st : LoopState) :
    (bs.any (fun b => r.Roles.Includes b.Role) = true ∧
        loopBindings none (some r) m1 m2 bs st = none) ∨
      (bs.any (fun b => r.Roles.Includes b.Role) = false ∧
        ∃ nb, loopBindings none (some r) m1 m2 bs st = some ⟨st.changed, nb, st.alreadyAdded⟩) := by
  induction bs generalizing st with
  | nil => right; exact ⟨rfl, st.newBindings, rfl⟩
  | cons b bs ih =>
    by_cases h : r.Roles.Includes b.Role = true
    · left
      refine ⟨by simp [h], ?_⟩
      simp [loopBindings, loopBody, addPass, removePass, h]
    · have hb : loopBody none (some r) m1 m2 st b =
          some ⟨st.changed,
            (if (ToSet b.Members).len > 0 then
              st.newBindings ++ [⟨(ToSet b.Members).ToSlice, b.Role, b.Condition⟩]
            else st.newBindings), st.alreadyAdded⟩ := by
        by_cases hl : (ToSet b.Members).len > 0
        · simp [loopBody, addPass, removePass, h, hl]
        · simp [loopBody, addPass, removePass, h, hl]
      unfold loopBindings
      rw [hb]
      simp only [List.any_cons, h, Bool.false_or]
      exact ih _

/-- A remove-only call panics as soon as a binding has one of the roles, and
otherwise returns the receiver. -/
theorem ChangeBindings_removeOnly (p : Policy) (r : PolicyDelta) :
    ChangeBindings p none (some r) =
      if p.Bindings.any (fun b => r.Roles.Includes b.Role) = true then none
      else some (false, p) := by
  unfold ChangeBindings
  simp only [Option.isNone_none, Option.isNone_some, Bool.false_eq_true, and_false, if_false]
  rcases loopBindings_removeOnly r "" (ServiceAccountMemberTmpl r.Email) p.Bindings
    ⟨false, [], []⟩ with ⟨h1, h2⟩ | ⟨h1, nb, h2⟩
  · rw [h2, h1]; rfl
  · rw [h2, h1]; rfl

theorem mem_kept (a : PolicyDelta) (tr : Option PolicyDelta) (bs : List Binding) (x : Binding) :
    x ∈ kept a tr bs ↔ ∃ b ∈ bs, x ∈ emitted a tr b := by
  induction bs with
  | nil => simp [kept]
  | cons b bs ih => simp [kept, ih]

theorem membersAfterAdd_mem (a : PolicyDelta) (b : Binding) (m : String) :
    m ∈ (membersAfterAdd a b).elems ↔
      m ∈ b.Members ∨ (addHit a b = true ∧ m = ServiceAccountMemberTmpl a.Email) := by
  unfold membersAfterAdd
  by_cases h : addHit a b = true
  · simp [h, StringSet.mem_Add, mem_ToSet]
  · simp [h, mem_ToSet]

theorem emitted_add_hit (a : PolicyDelta) (b : Binding) (h : addHit a b = true) :
    emitted a none b = [⟨(membersAfterAdd a b).ToSlice, b.Role, b.Condition⟩] := by
  unfold emitted membersAfter
  have : (membersAfterAdd a b).len > 0 := by
    unfold StringSet.len
    apply List.length_pos_of_mem
    exact (membersAfterAdd_mem a b _).2 (Or.inr ⟨h, rfl⟩)
  simp [this]

theorem emitted_key (a : PolicyDelta) (tr : Option PolicyDelta) (b x : Binding)
    (hx : x ∈ emitted a tr b) : x.Role = b.Role ∧ x.Condition = b.Condition := by
  unfold emitted at hx
  split at hx
  · rw [List.mem_singleton] at hx
    subst hx
    exact ⟨rfl, rfl⟩
  · exact absurd hx (List.not_mem_nil _)

theorem emitted_members_ne_nil (a : PolicyDelta) (tr : Option PolicyDelta) (b x : Binding)
    (hx : x ∈ emitted a tr b) : x.Members ≠ [] := by
  unfold emitted at hx
  split at hx
  · rename_i hlen
    rw [List.mem_singleton] at hx
    subst hx
    intro h
    simp only [StringSet.ToSlice] at h
    simp [StringSet.len, h] at hlen
  · exact absurd hx (List.not_mem_nil _)

theorem addHit_iff (a : PolicyDelta) (b : Binding) :
    addHit a b = true ↔ b.Role ∈ a.Roles.elems ∧ a.Condition = b.Condition := by
  simp [addHit, StringSet.Includes]

theorem needsFresh_iff (a : PolicyDelta) (bs : List Binding) (r : String)
    (hr : r ∈ a.Roles.elems) :
    needsFresh a bs r = true ↔ ∀ b ∈ bs, ¬ (b.Role = r ∧ b.Condition = a.Condition) := by
  unfold needsFresh
  rw [Bool.not_eq_true', ← Bool.not_eq_true, BindingExists_iff]
  simp only [freshBinding, List.mem_filter, not_exists, not_and]
  constructor
  · intro h b hb hrole hcond
    exact h b ⟨hb, (addHit_iff a b).2 ⟨hrole ▸ hr, hcond.symm⟩⟩ hrole hcond
  · intro h b hb hrole hcond
    exact h b hb.1 hrole hcond

theorem mem_synthesized (a : PolicyDelta) (bs : List Binding) (x : Binding) :
    x ∈ synthesized a bs ↔
      ∃ r ∈ a.Roles.elems, needsFresh a bs r = true ∧ x = freshBinding a r := by
  unfold synthesized
  simp only [List.mem_map, List.mem_filter]
  constructor
  · rintro ⟨r, ⟨h1, h2⟩, h3⟩
    exact ⟨r, h1, h2, h3.symm⟩
  · rintro ⟨r, h1, h2, h3⟩
    exact ⟨r, ⟨h1, h2⟩, h3.symm⟩

theorem changedFlag_of_hit (a : PolicyDelta) (tr : Option PolicyDelta) (bs : List Binding)
    (b : Binding) (hb : b ∈ bs) (h : addHit a b = true) : changedFlag a tr bs = true := by
  unfold changedFlag
  rw [Bool.or_eq_true]
  left
  rw [List.any_eq_true]
  exact ⟨b, hb, by simp [h]⟩

theorem filter_eq_of_nodup (l : List String) (r : String) (hl : l.Nodup) :
    l.filter (fun x => decide (x = r)) = if r ∈ l then [r] else [] := by
  induction l with
  | nil => simp
  | cons x l ih =>
    rw [List.nodup_cons] at hl
    by_cases hx : x = r
    · subst hx
      have : (x :: l).filter (fun y => decide (y = x)) = x :: l.filter (fun y => decide (y = x)) := by
        simp
      rw [this, ih hl.2, if_neg hl.1]
      simp
    · have hne : ¬ r = x := fun h => hx h.symm
      have : (x :: l).filter (fun y => decide (y = r)) = l.filter (fun y => decide (y = r)) := by
        simp [hx]
      rw [this, ih hl.2]
      simp [hne]

theorem filter_synthesized (a : PolicyDelta) (bs : List Binding) (r : String)
    (hr : r ∈ a.Roles.elems) :
    (synthesized a bs).filter (hasKey r a.Condition) =
      if needsFresh a bs r = true then [freshBinding a r] else [] := by
  unfold synthesized
  rw [List.filter_map]
  have hcomp : (hasKey r a.Condition ∘ freshBinding a) = fun x => decide (x = r) := by
    funext x
    simp [hasKey, freshBinding]
  rw [hcomp, filter_eq_of_nodup _ _ (a.Roles.nodup.filter _)]
  by_cases hn : needsFresh a bs r = true
  · simp [hn, hr]
  · simp [hn]

theorem filter_kept_add (a : PolicyDelta) (bs : List Binding) (r : String)
    (hr : r ∈ a.Roles.elems) :
    (kept a none bs).filter (hasKey r a.Condition) =
      (bs.filter (hasKey r a.Condition)).map (fun b =>
        ⟨((ToSet b.Members).Add (ServiceAccountMemberTmpl a.Email)).ToSlice,
          b.Role, b.Condition⟩) := by
  induction bs with
  | nil => simp [kept]
  | cons b bs ih =>
    simp only [kept, List.filter_append, ih]
    by_cases hk : hasKey r a.Condition b = true
    · have hk2 : b.Role = r ∧ b.Condition = a.Condition := by simpa [hasKey] using hk
      have hit : addHit a b = true := (addHit_iff a b).2 ⟨hk2.1 ▸ hr, hk2.2.symm⟩
      have hk3 : hasKey r a.Condition
          ⟨(membersAfterAdd a b).ToSlice, b.Role, b.Condition⟩ = true := by
        simpa [hasKey] using hk2
      rw [emitted_add_hit a b hit, List.filter_cons_of_pos hk, List.filter_cons_of_pos hk3]
      simp [membersAfterAdd, hit]
    · have hnil : (emitted a none b).filter (hasKey r a.Condition) = [] := by
        rw [List.filter_eq_nil_iff]
        intro x hx
        obtain ⟨k1, k2⟩ := emitted_key _ _ _ _ hx
        simpa [hasKey, k1, k2] using hk
      rw [hnil, List.filter_cons_of_neg hk]
      rfl

theorem changedFlag_add (a : PolicyDelta) (bs : List Binding) (r : String)
    (hr : r ∈ a.Roles.elems) : changedFlag a none bs = true := by
  by_cases hn : needsFresh a bs r = true
  · unfold changedFlag
    rw [Bool.or_eq_true]
    right
    rw [List.any_eq_true]
    exact ⟨r, hr, hn⟩
  · rw [needsFresh_iff _ _ _ hr] at hn
    push_neg at hn
    obtain ⟨b, hb, h1, h2⟩ := hn
    exact changedFlag_of_hit _ _ _ b hb ((addHit_iff a b).2 ⟨h1 ▸ hr, h2.symm⟩)

/-! ## Adding a member to an existing unconditional binding -/

/-- C1: when the policy `p` contains a binding with role `r`, no condition and
members `M`, `AddBindings` with roles `{r}`, email `e` and no condition returns
`changed = true` and a policy with the Etag of `p` in which a binding for `r`
without condition has exactly the members of `M` together with
`serviceAccount:e`; every binding for `r` without condition in the result
arises in this way from one of `p`. -/
theorem AddBindings_existing_unconditional (p : Policy) (r e : String) (M : List String)
    (hb : (⟨M, r, none⟩ : Binding) ∈ p.Bindings) :
    ∃ q, AddBindings p (some ⟨StringSet.single r, e, none⟩) = some (true, q) ∧
      q.Etag = p.Etag ∧
      (∃ b ∈ q.Bindings, b.Role = r ∧ b.Condition = none ∧
        ∀ m, m ∈ b.Members ↔ m ∈ M ∨ m = ServiceAccountMemberTmpl e) ∧
      (∀ b ∈ q.Bindings, b.Role = r → b.Condition = none →
        ∃ M1, (⟨M1, r, none⟩ : Binding) ∈ p.Bindings ∧
          ∀ m, m ∈ b.Members ↔ m ∈ M1 ∨ m = ServiceAccountMemberTmpl e) := by
  have hall : ∀ M1 : List String,
      addHit ⟨StringSet.single r, e, none⟩ (⟨M1, r, none⟩ : Binding) = true := by
    intro M1
    simp [addHit, StringSet.Includes, StringSet.single]
  have hmem : ∀ (M1 : List String) (m : String),
      m ∈ (membersAfterAdd ⟨StringSet.single r, e, none⟩ (⟨M1, r, none⟩ : Binding)).ToSlice ↔
        m ∈ M1 ∨ m = ServiceAccountMemberTmpl e := by
    intro M1 m
    unfold StringSet.ToSlice
    rw [membersAfterAdd_mem]
    simp [hall M1]
  refine ⟨⟨kept ⟨StringSet.single r, e, none⟩ none p.Bindings ++
    synthesized ⟨StringSet.single r, e, none⟩ p.Bindings, p.Etag, p.Version⟩, ?_, rfl, ?_, ?_⟩
  · unfold AddBindings
    rw [ChangeBindings_some, if_pos (changedFlag_of_hit _ _ _ _ hb (hall M))]
  · refine ⟨⟨(membersAfterAdd ⟨StringSet.single r, e, none⟩ ⟨M, r, none⟩).ToSlice, r, none⟩,
      ?_, rfl, rfl, hmem M⟩
    apply List.mem_append_left
    rw [mem_kept]
    exact ⟨_, hb, by rw [emitted_add_hit _ _ (hall M)]; exact List.mem_singleton.2 rfl⟩
  · intro b hbq hrole hcond
    rcases List.mem_append.1 hbq with hk | hs
    · rw [mem_kept] at hk
      obtain ⟨b0, hb0, hx⟩ := hk
      obtain ⟨k1, k2⟩ := emitted_key _ _ _ _ hx
      obtain ⟨M1, r1, c1⟩ := b0
      simp only at k1 k2
      rw [hrole] at k1
      rw [hcond] at k2
      subst k1 k2
      rw [emitted_add_hit _ _ (hall M1), List.mem_singleton] at hx
      subst hx
      exact ⟨M1, hb0, hmem M1⟩
    · rw [mem_synthesized] at hs
      obtain ⟨r1, hr1, hn, hx⟩ := hs
      subst hx
      simp only [freshBinding] at hrole
      subst hrole
      rw [needsFresh_iff _ _ _ hr1] at hn
      exact absurd ⟨rfl, rfl⟩ (hn _ hb)

/-- C1 at the policy of the scenario: `roles/editor` held by `a@x.iam`, Etag
`E1`, adding `b@x.iam`. -/
theorem AddBindings_existing_unconditional_witness :
    (⟨["serviceAccount:a@x.iam"], "roles/editor", none⟩ : Binding) ∈
        (⟨[⟨["serviceAccount:a@x.iam"], "roles/editor", none⟩], "E1", 0⟩ : Policy).Bindings ∧
      ∃ q, AddBindings ⟨[⟨["serviceAccount:a@x.iam"], "roles/editor", none⟩], "E1", 0⟩
          (some ⟨StringSet.single "roles/editor", "b@x.iam", none⟩) = some (true, q) ∧
        q.Etag = "E1" ∧
        (∃ b ∈ q.Bindings, b.Role = "roles/editor" ∧ b.Condition = none ∧
          ∀ m, m ∈ b.Members ↔
            m ∈ ["serviceAccount:a@x.iam"] ∨ m = ServiceAccountMemberTmpl "b@x.iam") ∧
        (∀ b ∈ q.Bindings, b.Role = "roles/editor" → b.Condition = none →
          ∃ M1, (⟨M1, "roles/editor", none⟩ : Binding) ∈
              (⟨[⟨["serviceAccount:a@x.iam"], "roles/editor", none⟩], "E1", 0⟩ : Policy).Bindings ∧
            ∀ m, m ∈ b.Members ↔ m ∈ M1 ∨ m = ServiceAccountMemberTmpl "b@x.iam") :=
  ⟨List.mem_singleton.2 rfl,
    AddBindings_existing_unconditional
      ⟨[⟨["serviceAccount:a@x.iam"], "roles/editor", none⟩], "E1", 0⟩
      "roles/editor" "b@x.iam" ["serviceAccount:a@x.iam"] (List.mem_singleton.2 rfl)⟩

/-! ## Synthesis of new bindings -/

/-- With conditions compared by pointer, as the code compares them: for a role
`r` of the add delta `d`, `AddBindings` returns `changed = true`; when no
binding of `p` has role `r` and the condition pointer of `d`, the result holds
exactly one binding with that role and pointer, whose members are the
one-element list of the new member; when `p` has such bindings, the bindings
with that role and pointer in the result are those of `p`, in order, each with
the member inserted, and none is synthesized. -/
theorem AddBindings_synthesis (p : Policy) (d : PolicyDelta) (r : String)
    (hr : r ∈ d.Roles.elems) :
    ∃ q, AddBindings p (some d) = some (true, q) ∧
      ((∀ b ∈ p.Bindings, ¬ (b.Role = r ∧ b.Condition = d.Condition)) →
        q.Bindings.filter (hasKey r d.Condition) =
          [⟨[ServiceAccountMemberTmpl d.Email], r, d.Condition⟩]) ∧
      ((∃ b ∈ p.Bindings, b.Role = r ∧ b.Condition = d.Condition) →
        q.Bindings.filter (hasKey r d.Condition) =
          (p.Bindings.filter (hasKey r d.Condition)).map (fun b =>
            ⟨((ToSet b.Members).Add (ServiceAccountMemberTmpl d.Email)).ToSlice,
              b.Role, b.Condition⟩)) := by
  refine ⟨⟨kept d none p.Bindings ++ synthesized d p.Bindings, p.Etag, p.Version⟩, ?_, ?_, ?_⟩
  · unfold AddBindings
    rw [ChangeBindings_some, if_pos (changedFlag_add d p.Bindings r hr)]
  · intro h
    have hn : needsFresh d p.Bindings r = true := (needsFresh_iff _ _ _ hr).2 h
    have hnil : p.Bindings.filter (hasKey r d.Condition) = [] := by
      rw [List.filter_eq_nil_iff]
      intro b hb
      simpa [hasKey] using h b hb
    simp only [List.filter_append, filter_kept_add d p.Bindings r hr,
      filter_synthesized d p.Bindings r hr, hn, if_true, hnil, List.map_nil, List.nil_append]
    rfl
  · rintro ⟨b, hb, h⟩
    have hn : ¬ needsFresh d p.Bindings r = true := by
      rw [needsFresh_iff _ _ _ hr]
      intro hall
      exact hall b hb h
    simp [List.filter_append, filter_kept_add d p.Bindings r hr,
      filter_synthesized d p.Bindings r hr, hn]

/-- With conditions compared structurally: when no binding of `p` has role `r`
and a condition structurally equal to that of `d`, the result of `AddBindings`
holds exactly one binding with role `r` and such a condition, the synthesized
one with the single new member. -/
theorem AddBindings_synthesis_structural (h : Heap) (p : Policy) (d : PolicyDelta) (r : String)
    (hr : r ∈ d.Roles.elems)
    (hno : ∀ b ∈ p.Bindings,
      ¬ (b.Role = r ∧ loadCondition h b.Condition = loadCondition h d.Condition)) :
    ∃ q, AddBindings p (some d) = some (true, q) ∧
      q.Bindings.filter (hasStructKey h r d.Condition) =
        [⟨[ServiceAccountMemberTmpl d.Email], r, d.Condition⟩] := by
  refine ⟨⟨kept d none p.Bindings ++ synthesized d p.Bindings, p.Etag, p.Version⟩, ?_, ?_⟩
  · unfold AddBindings
    rw [ChangeBindings_some, if_pos (changedFlag_add d p.Bindings r hr)]
  · have hn : needsFresh d p.Bindings r = true := by
      rw [needsFresh_iff _ _ _ hr]
      intro b hb hk
      exact hno b hb ⟨hk.1, by rw [hk.2]⟩
    have hkept : (kept d none p.Bindings).filter (hasStructKey h r d.Condition) = [] := by
      rw [List.filter_eq_nil_iff]
      intro x hx
      rw [mem_kept] at hx
      obtain ⟨b, hb, hxb⟩ := hx
      obtain ⟨k1, k2⟩ := emitted_key _ _ _ _ hxb
      simpa [hasStructKey, k1, k2] using hno b hb
    have hsyn : (synthesized d p.Bindings).filter (hasStructKey h r d.Condition) =
        [freshBinding d r] := by
      unfold synthesized
      rw [List.filter_map]
      have hcomp : (hasStructKey h r d.Condition ∘ freshBinding d) =
          fun x => decide (x = r) := by
        funext x
        simp [hasStructKey, freshBinding]
      rw [hcomp, filter_eq_of_nodup _ _ (d.Roles.nodup.filter _)]
      simp [hn, hr]
    show (kept d none p.Bindings ++ synthesized d p.Bindings).filter _ = _
    rw [List.filter_append, hkept, hsyn]
    rfl

/-- C2: a binding is synthesized for a role although the policy holds a
binding for that role with an equal condition.  The policy holds `roles/owner`
under the condition at address 1; the add delta names `roles/owner` and
`roles/viewer` with the condition at address 2, which has the same title,
description and expression.  For `roles/viewer`, which the policy does not
hold, one binding with the single new member is synthesized; for `roles/owner`
a binding is synthesized as well, and the existing one does not get the
member. -/
theorem AddBindings_synthesizes_for_held_role :
    (∃ b ∈ (⟨[⟨["serviceAccount:a@x.iam"], "roles/owner", some 1⟩], "E3", 2⟩ : Policy).Bindings,
        b.Role = "roles/owner" ∧
          loadCondition twoCopies b.Condition = loadCondition twoCopies (some 2)) ∧
      AddBindings ⟨[⟨["serviceAccount:a@x.iam"], "roles/owner", some 1⟩], "E3", 2⟩
        (some ⟨⟨["roles/owner", "roles/viewer"], by decide⟩, "b@x.iam", some 2⟩) =
        some (true, ⟨[⟨["serviceAccount:a@x.iam"], "roles/owner", some 1⟩,
          ⟨["serviceAccount:b@x.iam"], "roles/owner", some 2⟩,
          ⟨["serviceAccount:b@x.iam"], "roles/viewer", some 2⟩], "E3", 2⟩) := by
  constructor
  · exact ⟨⟨["serviceAccount:a@x.iam"], "roles/owner", some 1⟩, List.mem_singleton.2 rfl,
      rfl, rfl⟩
  · decide

theorem ChangeBindings_none_none (p : Policy) : ChangeBindings p none none = some (false, p) := by
  simp [ChangeBindings]

/-! ## General facts behind the evaluations below -/

theorem AddBindings_changed (p : Policy) (d : PolicyDelta) (h : d.Roles.elems ≠ []) :
    ∃ q, AddBindings p (some d) = some (true, q) := by
  obtain ⟨r, hr⟩ := List.exists_mem_of_ne_nil _ h
  refine ⟨⟨kept d none p.Bindings ++ synthesized d p.Bindings, p.Etag, p.Version⟩, ?_⟩
  unfold AddBindings
  rw [ChangeBindings_some, if_pos (changedFlag_add d p.Bindings r hr)]

/-- An add delta with at least one role reports `changed = true` on every
policy, hence also on the policy a first identical call returned. -/
theorem AddBindings_twice_changed (p : Policy) (d : PolicyDelta) (h : d.Roles.elems ≠ []) :
    ∃ q q1, AddBindings p (some d) = some (true, q) ∧ AddBindings q (some d) = some (true, q1) := by
  obtain ⟨q, hq⟩ := AddBindings_changed p d h
  obtain ⟨q1, hq1⟩ := AddBindings_changed q d h
  exact ⟨q, q1, hq, hq1⟩

theorem kept_uniquePtrKeys (a : PolicyDelta) (tr : Option PolicyDelta) (bs : List Binding)
    (h : uniquePtrKeys bs) : uniquePtrKeys (kept a tr bs) := by
  unfold uniquePtrKeys at *
  induction bs with
  | nil => simp [kept]
  | cons b bs ih =>
    rw [List.pairwise_cons] at h
    simp only [kept]
    rw [List.pairwise_append]
    refine ⟨?_, ih h.2, ?_⟩
    · unfold emitted
      split
      · exact List.pairwise_singleton _ _
      · exact List.Pairwise.nil
    · intro x hx y hy
      obtain ⟨k1, k2⟩ := emitted_key _ _ _ _ hx
      rw [mem_kept] at hy
      obtain ⟨b1, hb1, hy1⟩ := hy
      obtain ⟨k3, k4⟩ := emitted_key _ _ _ _ hy1
      rw [k1, k2, k3, k4]
      exact h.1 b1 hb1

theorem synthesized_uniquePtrKeys (a : PolicyDelta) (bs : List Binding) :
    uniquePtrKeys (synthesized a bs) := by
  unfold uniquePtrKeys synthesized
  rw [List.pairwise_map]
  have hnd : (a.Roles.elems.filter (needsFresh a bs)).Nodup := a.Roles.nodup.filter _
  refine List.Pairwise.imp ?_ hnd
  intro x y hxy hk
  exact hxy hk.1

/-- With conditions compared by pointer, as the code compares them, a policy
without two bindings of one identity stays so under every call that returns. -/
theorem ChangeBindings_uniquePtrKeys (p : Policy) (toAdd toRemove : Option PolicyDelta)
    (c : Bool) (q : Policy) (hres : ChangeBindings p toAdd toRemove = some (c, q))
    (hp : uniquePtrKeys p.Bindings) : uniquePtrKeys q.Bindings := by
  cases toAdd with
  | none =>
    cases toRemove with
    | none =>
      rw [ChangeBindings_none_none] at hres
      injection hres with hres
      injection hres with h1 h2
      exact h2 ▸ hp
    | some r =>
      rw [ChangeBindings_removeOnly] at hres
      split at hres
      · exact absurd hres (by simp)
      · injection hres with hres
        injection hres with h1 h2
        exact h2 ▸ hp
  | some a =>
    rw [ChangeBindings_some] at hres
    injection hres with hres
    split at hres
    · injection hres with h1 h2
      subst h2
      show uniquePtrKeys (kept a toRemove p.Bindings ++ synthesized a p.Bindings)
      unfold uniquePtrKeys
      rw [List.pairwise_append]
      refine ⟨kept_uniquePtrKeys a toRemove _ hp, synthesized_uniquePtrKeys a _, ?_⟩
      intro x hx y hy
      rw [mem_kept] at hx
      obtain ⟨b0, hb0, hx0⟩ := hx
      obtain ⟨k1, k2⟩ := emitted_key _ _ _ _ hx0
      rw [mem_synthesized] at hy
      obtain ⟨r, hr, hn, hy0⟩ := hy
      subst hy0
      rw [needsFresh_iff _ _ _ hr] at hn
      simp only [freshBinding, k1, k2]
      exact hn b0 hb0
    · injection hres with h1 h2
      exact h2 ▸ hp

/-! ## Removal -/

/-- C3: at the scenario policy, whose sole binding holds the single member
`serviceAccount:a@x.iam`, `RemoveBindings` for that role, email and condition
does not return a pruned policy: the remove pass reads `toAdd.Condition` of the
nil add delta and the call panics. -/
theorem RemoveBindings_sole_member_panics :
    RemoveBindings editorPolicy (some ⟨StringSet.single "roles/editor", "a@x.iam", none⟩) =
      none := by
  decide

/-- C4: at the scenario policy the second of two identical `AddBindings` calls
returns `changed = true` again, with the very policy it was given. -/
theorem AddBindings_second_call_changed :
    AddBindings editorPolicy (some ⟨StringSet.single "roles/editor", "b@x.iam", none⟩) =
        some (true, ⟨[⟨["serviceAccount:a@x.iam", "serviceAccount:b@x.iam"],
          "roles/editor", none⟩], "E1", 0⟩) ∧
      AddBindings ⟨[⟨["serviceAccount:a@x.iam", "serviceAccount:b@x.iam"],
          "roles/editor", none⟩], "E1", 0⟩
        (some ⟨StringSet.single "roles/editor", "b@x.iam", none⟩) =
        some (true, ⟨[⟨["serviceAccount:a@x.iam", "serviceAccount:b@x.iam"],
          "roles/editor", none⟩], "E1", 0⟩) := by
  constructor <;> decide

/-- C5: at the scenario policy, `AddBindings` of `b@x.iam` to `roles/editor`
succeeds and the `RemoveBindings` of the same delta on its result panics, so no
policy equal to the original comes back. -/
theorem add_then_remove_panics :
    AddBindings editorPolicy (some ⟨StringSet.single "roles/editor", "b@x.iam", none⟩) =
        some (true, ⟨[⟨["serviceAccount:a@x.iam", "serviceAccount:b@x.iam"],
          "roles/editor", none⟩], "E1", 0⟩) ∧
      RemoveBindings ⟨[⟨["serviceAccount:a@x.iam", "serviceAccount:b@x.iam"],
          "roles/editor", none⟩], "E1", 0⟩
        (some ⟨StringSet.single "roles/editor", "b@x.iam", none⟩) = none := by
  constructor <;> decide

/-- C6: the remove pass follows the condition of the add delta.  At the scenario
policy, a remove delta for `roles/editor` and `a@x.iam` whose condition is the
pointer 1 (not the nil condition of the binding) still removes the member when
the add delta has the nil condition; a remove delta with the nil condition of
the binding removes nothing when the add delta has condition pointer 1; and
without an add delta the call panics. -/
theorem remove_pass_reads_add_condition :
    ChangeBindings editorPolicy
        (some ⟨StringSet.single "roles/viewer", "b@x.iam", none⟩)
        (some ⟨StringSet.single "roles/editor", "a@x.iam", some 1⟩) =
        some (true, ⟨[⟨["serviceAccount:b@x.iam"], "roles/viewer", none⟩], "E1", 0⟩) ∧
      ChangeBindings editorPolicy
        (some ⟨StringSet.single "roles/viewer", "b@x.iam", some 1⟩)
        (some ⟨StringSet.single "roles/editor", "a@x.iam", none⟩) =
        some (true, ⟨[⟨["serviceAccount:a@x.iam"], "roles/editor", none⟩,
          ⟨["serviceAccount:b@x.iam"], "roles/viewer", some 1⟩], "E1", 0⟩) ∧
      ChangeBindings editorPolicy none
        (some ⟨StringSet.single "roles/editor", "a@x.iam", none⟩) = none := by
  refine ⟨?_, ?_, ?_⟩ <;> decide

/-- C7: a remove-only `ChangeBindings` on a policy holding `roles/viewer`, with a
remove delta naming `roles/viewer`, ends in the nil-pointer panic, whether or
not the member to remove is present. -/
theorem ChangeBindings_remove_only_panics :
    ChangeBindings ⟨[⟨["serviceAccount:a@x.iam"], "roles/viewer", some 1⟩], "E2", 1⟩ none
        (some ⟨StringSet.single "roles/viewer", "z@x.iam", some 1⟩) = none ∧
      ChangeBindings ⟨[⟨["serviceAccount:a@x.iam"], "roles/viewer", some 1⟩], "E2", 1⟩ none
        (some ⟨StringSet.single "roles/viewer", "a@x.iam", some 1⟩) = none := by
  constructor <;> decide

/-! ## The no-op call -/

/-- C8: `ChangeBindings(nil, nil)` returns `changed = false` and the policy it
was called on, whatever that policy contains. -/
theorem ChangeBindings_nil_nil (p : Policy) : ChangeBindings p none none = some (false, p) := by
  simp [ChangeBindings]

/-! ## Invariants of the returned policy -/

/-- C9: uniqueness of binding identity under structural comparison of
conditions is lost.  The policy holds one binding for `roles/viewer` whose
condition is at address 1; the add delta names `roles/viewer` with a condition
at address 2 holding the same title, description and expression.  The pointers
differ, so a second binding is synthesized, and the returned policy has two
bindings with the same role and structurally equal conditions. -/
theorem AddBindings_duplicates_structural_key :
    uniqueKeys twoCopies
        (⟨[⟨["serviceAccount:a@x.iam"], "roles/viewer", some 1⟩], "E1", 0⟩ : Policy).Bindings ∧
      AddBindings ⟨[⟨["serviceAccount:a@x.iam"], "roles/viewer", some 1⟩], "E1", 0⟩
        (some ⟨StringSet.single "roles/viewer", "b@x.iam", some 2⟩) =
        some (true, ⟨[⟨["serviceAccount:a@x.iam"], "roles/viewer", some 1⟩,
          ⟨["serviceAccount:b@x.iam"], "roles/viewer", some 2⟩], "E1", 0⟩) ∧
      ¬ uniqueKeys twoCopies
        [⟨["serviceAccount:a@x.iam"], "roles/viewer", some 1⟩,
          ⟨["serviceAccount:b@x.iam"], "roles/viewer", some 2⟩] := by
  refine ⟨?_, ?_, ?_⟩
  · simp [uniqueKeys]
  · decide
  · simp [uniqueKeys, loadCondition, twoCopies]

/-- C10, as stated, fails: a policy that already holds a binding without
members comes back unchanged from `ChangeBindings(nil, nil)`, empty binding
included. -/
theorem ChangeBindings_keeps_empty_binding :
    ∃ q, ChangeBindings ⟨[⟨[], "roles/editor", none⟩], "E1", 0⟩ none none = some (false, q) ∧
      ∃ b ∈ q.Bindings, b.Members = [] :=
  ⟨⟨[⟨[], "roles/editor", none⟩], "E1", 0⟩, by decide, ⟨[], "roles/editor", none⟩,
    List.mem_singleton.2 rfl, rfl⟩

/-- C10, amended: whenever `ChangeBindings` returns, the returned policy has no
binding with an empty member list provided the call reports `changed = true` or
the policy it was called on has no such binding. -/
theorem ChangeBindings_no_empty_binding (p : Policy) (toAdd toRemove : Option PolicyDelta)
    (c : Bool) (q : Policy) (hres : ChangeBindings p toAdd toRemove = some (c, q))
    (hc : c = true ∨ ∀ b ∈ p.Bindings, b.Members ≠ []) :
    ∀ b ∈ q.Bindings, b.Members ≠ [] := by
  have hsame : c = false → q = p → ∀ b ∈ q.Bindings, b.Members ≠ [] := by
    intro h1 h2
    subst h2
    rcases hc with hc | hc
    · rw [h1] at hc
      exact absurd hc (by decide)
    · exact hc
  cases toAdd with
  | none =>
    cases toRemove with
    | none =>
      rw [ChangeBindings_none_none] at hres
      injection hres with hres
      injection hres with h1 h2
      exact hsame h1.symm h2.symm
    | some r =>
      rw [ChangeBindings_removeOnly] at hres
      split at hres
      · exact absurd hres (by simp)
      · injection hres with hres
        injection hres with h1 h2
        exact hsame h1.symm h2.symm
  | some a =>
    rw [ChangeBindings_some] at hres
    injection hres with hres
    split at hres
    · injection hres with h1 h2
      subst h2
      intro b hb
      rcases List.mem_append.1 hb with hk | hs
      · rw [mem_kept] at hk
        obtain ⟨b0, _, hx⟩ := hk
        exact emitted_members_ne_nil _ _ _ _ hx
      · rw [mem_synthesized] at hs
        obtain ⟨r, _, _, hx⟩ := hs
        subst hx
        simp [freshBinding]
    · injection hres with h1 h2
      exact hsame h1.symm h2.symm

/-- C10, amended, at the scenario policy with the member `a@x.iam` exchanged for
`b@x.iam` in one call. -/
theorem ChangeBindings_no_empty_binding_witness :
    ChangeBindings editorPolicy
        (some ⟨StringSet.single "roles/editor", "b@x.iam", none⟩)
        (some ⟨StringSet.single "roles/editor", "a@x.iam", none⟩) =
        some (true, ⟨[⟨["serviceAccount:b@x.iam"], "roles/editor", none⟩], "E1", 0⟩) ∧
      ∀ b ∈ (⟨[⟨["serviceAccount:b@x.iam"], "roles/editor", none⟩], "E1", 0⟩ : Policy).Bindings,
        b.Members ≠ [] :=
  ⟨by decide,
    ChangeBindings_no_empty_binding editorPolicy
      (some ⟨StringSet.single "roles/editor", "b@x.iam", none⟩)
      (some ⟨StringSet.single "roles/editor", "a@x.iam", none⟩) true
      ⟨[⟨["serviceAccount:b@x.iam"], "roles/editor", none⟩], "E1", 0⟩ (by decide)
      (Or.inl rfl)⟩

/-! ## Etag and Version -/

/-- C11: whenever `ChangeBindings` returns, with `changed` true or false, the
returned policy has the Etag and the Version of the policy it was called on. -/
theorem ChangeBindings_etag_version (p : Policy) (toAdd toRemove : Option PolicyDelta)
    (c : Bool) (q : Policy) (hres : ChangeBindings p toAdd toRemove = some (c, q)) :
    q.Etag = p.Etag ∧ q.Version = p.Version := by
  cases toAdd with
  | none =>
    cases toRemove with
    | none =>
      rw [ChangeBindings_none_none] at hres
      injection hres with hres
      injection hres with h1 h2
      subst h2
      exact ⟨rfl, rfl⟩
    | some r =>
      rw [ChangeBindings_removeOnly] at hres
      split at hres
      · exact absurd hres (by simp)
      · injection hres with hres
        injection hres with h1 h2
        subst h2
        exact ⟨rfl, rfl⟩
  | some a =>
    rw [ChangeBindings_some] at hres
    injection hres with hres
    split at hres
    · injection hres with h1 h2
      subst h2
      exact ⟨rfl, rfl⟩
    · injection hres with h1 h2
      subst h2
      exact ⟨rfl, rfl⟩

/-- C11 at a policy with Etag `E7` and Version 3 to which a role is added. -/
theorem ChangeBindings_etag_version_witness :
    ChangeBindings ⟨[⟨["serviceAccount:a@x.iam"], "roles/editor", none⟩], "E7", 3⟩
        (some ⟨StringSet.single "roles/viewer", "b@x.iam", none⟩) none =
        some (true, ⟨[⟨["serviceAccount:a@x.iam"], "roles/editor", none⟩,
          ⟨["serviceAccount:b@x.iam"], "roles/viewer", none⟩], "E7", 3⟩) ∧
      (⟨[⟨["serviceAccount:a@x.iam"], "roles/editor", none⟩,
          ⟨["serviceAccount:b@x.iam"], "roles/viewer", none⟩], "E7", 3⟩ : Policy).Etag =
        (⟨[⟨["serviceAccount:a@x.iam"], "roles/editor", none⟩], "E7", 3⟩ : Policy).Etag ∧
      (⟨[⟨["serviceAccount:a@x.iam"], "roles/editor", none⟩,
          ⟨["serviceAccount:b@x.iam"], "roles/viewer", none⟩], "E7", 3⟩ : Policy).Version =
        (⟨[⟨["serviceAccount:a@x.iam"], "roles/editor", none⟩], "E7", 3⟩ : Policy).Version :=
  ⟨by decide,
    ChangeBindings_etag_version
      ⟨[⟨["serviceAccount:a@x.iam"], "roles/editor", none⟩], "E7", 3⟩
      (some ⟨StringSet.single "roles/viewer", "b@x.iam", none⟩) none true
      ⟨[⟨["serviceAccount:a@x.iam"], "roles/editor", none⟩,
        ⟨["serviceAccount:b@x.iam"], "roles/viewer", none⟩], "E7", 3⟩ (by decide)⟩

/-! ## Matching of conditions -/

/-- C12: conditions are matched by pointer, not by content.  The policy holds
`roles/editor` under the condition at address 1; the add delta names
`roles/editor` with the condition at address 2, which has the same title,
description and expression.  The member is not inserted into the existing
binding, whose members stay as they were, and an additional binding for
`roles/editor` is synthesized. -/
theorem AddBindings_equal_condition_not_matched :
    loadCondition twoCopies (some 1) = loadCondition twoCopies (some 2) ∧
      AddBindings ⟨[⟨["serviceAccount:a@x.iam"], "roles/editor", some 1⟩], "E1", 0⟩
        (some ⟨StringSet.single "roles/editor", "c@x.iam", some 2⟩) =
        some (true, ⟨[⟨["serviceAccount:a@x.iam"], "roles/editor", some 1⟩,
          ⟨["serviceAccount:c@x.iam"], "roles/editor", some 2⟩], "E1", 0⟩) := by
  constructor
  · rfl
  · decide

/-! ## Deltas without roles -/

theorem changedFlag_no_roles (a : PolicyDelta) (tr : Option PolicyDelta) (bs : List Binding)
    (ha : a.Roles.elems = []) (htr : ∀ r, tr = some r → r.Roles.elems = []) :
    changedFlag a tr bs = false := by
  unfold changedFlag
  rw [ha]
  simp only [List.any_nil, Bool.or_false]
  rw [List.any_eq_false]
  intro b _
  have h1 : addHit a b = false := by
    simp [addHit, StringSet.Includes, ha]
  have h2 : remHit a tr b = false := by
    cases tr with
    | none => rfl
    | some r => simp [remHit, StringSet.Includes, htr r rfl]
  simp [h1, h2]

/-- C14: a delta without roles is a no-op and not a failure.  For deltas `d` and
`d1` with empty role sets, `AddBindings(d)`, `RemoveBindings(d)`,
`ChangeBindings(d, d1)` and `ChangeBindings(d1, d)` all return `changed = false`
and the policy they were called on. -/
theorem roleless_delta_noop (p : Policy) (d d1 : PolicyDelta)
    (hd : d.Roles.elems = []) (hd1 : d1.Roles.elems = []) :
    AddBindings p (some d) = some (false, p) ∧
      RemoveBindings p (some d) = some (false, p) ∧
      ChangeBindings p (some d) (some d1) = some (false, p) ∧
      ChangeBindings p (some d1) (some d) = some (false, p) := by
  refine ⟨?_, ?_, ?_, ?_⟩
  · unfold AddBindings
    rw [ChangeBindings_some, changedFlag_no_roles d none _ hd (by intro r hr; cases hr)]
    rfl
  · unfold RemoveBindings
    rw [ChangeBindings_removeOnly]
    have : p.Bindings.any (fun b => d.Roles.Includes b.Role) = false := by
      rw [List.any_eq_false]
      intro b _
      simp [StringSet.Includes, hd]
    rw [this]
    rfl
  · rw [ChangeBindings_some, changedFlag_no_roles d (some d1) _ hd
      (by intro r hr; injection hr with hr; exact hr ▸ hd1)]
    rfl
  · rw [ChangeBindings_some, changedFlag_no_roles d1 (some d) _ hd1
      (by intro r hr; injection hr with hr; exact hr ▸ hd)]
    rfl

/-- C14 at the scenario policy with two deltas whose role sets are empty. -/
theorem roleless_delta_noop_witness :
    (⟨StringSet.empty, "a@x.iam", none⟩ : PolicyDelta).Roles.elems = [] ∧
      (⟨StringSet.empty, "b@x.iam", some 1⟩ : PolicyDelta).Roles.elems = [] ∧
      AddBindings editorPolicy (some ⟨StringSet.empty, "a@x.iam", none⟩) =
        some (false, editorPolicy) ∧
      RemoveBindings editorPolicy (some ⟨StringSet.empty, "a@x.iam", none⟩) =
        some (false, editorPolicy) ∧
      ChangeBindings editorPolicy (some ⟨StringSet.empty, "a@x.iam", none⟩)
        (some ⟨StringSet.empty, "b@x.iam", some 1⟩) = some (false, editorPolicy) ∧
      ChangeBindings editorPolicy (some ⟨StringSet.empty, "b@x.iam", some 1⟩)
        (some ⟨StringSet.empty, "a@x.iam", none⟩) = some (false, editorPolicy) :=
  ⟨rfl, rfl,
    roleless_delta_noop editorPolicy ⟨StringSet.empty, "a@x.iam", none⟩
      ⟨StringSet.empty, "b@x.iam", some 1⟩ rfl rfl⟩

/-! ## Condition partitioning -/

theorem ToSet_singleton (x : String) : (ToSet [x]).elems = [x] := by
  simp [ToSet, StringSet.Add, StringSet.empty]

/-- C13: starting from a policy without bindings, adding role `r` for `e1` under
condition `A` and then role `r` for `e2` under a different condition `B` gives
exactly two bindings: `(r, A)` with the single member `serviceAccount:e1`
followed by `(r, B)` with the single member `serviceAccount:e2`.  The
conditions are pointers; conditions that differ in content are different
pointers. -/
theorem condition_partitioning (etag : String) (version : Int) (r e1 e2 : String)
    (A B : CondPtr) (hAB : A ≠ B) :
    AddBindings (emptyPolicy etag version) (some ⟨StringSet.single r, e1, A⟩) =
        some (true, ⟨[⟨[ServiceAccountMemberTmpl e1], r, A⟩], etag, version⟩) ∧
      AddBindings ⟨[⟨[ServiceAccountMemberTmpl e1], r, A⟩], etag, version⟩
        (some ⟨StringSet.single r, e2, B⟩) =
        some (true, ⟨[⟨[ServiceAccountMemberTmpl e1], r, A⟩,
          ⟨[ServiceAccountMemberTmpl e2], r, B⟩], etag, version⟩) := by
  have hBA : ¬ B = A := fun h => hAB h.symm
  constructor
  · unfold AddBindings
    rw [ChangeBindings_some]
    simp [changedFlag, kept, synthesized, needsFresh, freshBinding, BindingExists,
      emptyPolicy, StringSet.single]
  · unfold AddBindings
    rw [ChangeBindings_some]
    have hhit : addHit ⟨StringSet.single r, e2, B⟩
        (⟨[ServiceAccountMemberTmpl e1], r, A⟩ : Binding) = false := by
      simp [addHit, hBA]
    have hem : emitted ⟨StringSet.single r, e2, B⟩ none
        (⟨[ServiceAccountMemberTmpl e1], r, A⟩ : Binding) =
        [⟨[ServiceAccountMemberTmpl e1], r, A⟩] := by
      simp [emitted, membersAfter, membersAfterAdd, hhit, StringSet.len, StringSet.ToSlice,
        ToSet_singleton]
    have hfresh : needsFresh ⟨StringSet.single r, e2, B⟩
        [(⟨[ServiceAccountMemberTmpl e1], r, A⟩ : Binding)] r = true := by
      simp [needsFresh, hhit, BindingExists]
    have hsyn : synthesized ⟨StringSet.single r, e2, B⟩
        [(⟨[ServiceAccountMemberTmpl e1], r, A⟩ : Binding)] =
        [⟨[ServiceAccountMemberTmpl e2], r, B⟩] := by
      have hroles : (StringSet.single r).elems = [r] := rfl
      simp [synthesized, hroles, hfresh, freshBinding]
    rw [if_pos (changedFlag_add _ _ r (List.mem_singleton.2 rfl))]
    simp [kept, hem, hsyn]

/-- C13 with `roles/viewer`, `alice@example.com` under the condition at address
1 and `bob@example.com` under the condition at address 2. -/
theorem condition_partitioning_witness :
    (some 1 : CondPtr) ≠ some 2 ∧
      AddBindings (emptyPolicy "E0" 1)
          (some ⟨StringSet.single "roles/viewer", "alice@example.com", some 1⟩) =
        some (true, ⟨[⟨[ServiceAccountMemberTmpl "alice@example.com"], "roles/viewer", some 1⟩],
          "E0", 1⟩) ∧
      AddBindings ⟨[⟨[ServiceAccountMemberTmpl "alice@example.com"], "roles/viewer", some 1⟩],
          "E0", 1⟩
          (some ⟨StringSet.single "roles/viewer", "bob@example.com", some 2⟩) =
        some (true, ⟨[⟨[ServiceAccountMemberTmpl "alice@example.com"], "roles/viewer", some 1⟩,
          ⟨[ServiceAccountMemberTmpl "bob@example.com"], "roles/viewer", some 2⟩], "E0", 1⟩) :=
  ⟨by decide,
    condition_partitioning "E0" 1 "roles/viewer" "alice@example.com" "bob@example.com"
      (some 1) (some 2) (by decide)⟩

/-! ## Order of the returned bindings -/

theorem kept_keys_sublist (a : PolicyDelta) (tr : Option PolicyDelta) (bs : List Binding) :
    List.Sublist ((kept a tr bs).map bindingKey) (bs.map bindingKey) := by
  induction bs with
  | nil => simp [kept]
  | cons b bs ih =>
    simp only [kept, List.map_append, List.map_cons]
    unfold emitted
    split
    · exact List.Sublist.cons₂ _ ih
    · exact List.Sublist.cons _ ih

theorem needsFresh_eq_not_any (a : PolicyDelta) (bs : List Binding) (r : String)
    (hr : r ∈ a.Roles.elems) :
    needsFresh a bs r = !bs.any (hasKey r a.Condition) := by
  rw [Bool.eq_iff_iff, needsFresh_iff a bs r hr]
  simp [hasKey]

/-- C15: when `ChangeBindings` returns `changed = true`, an add delta was given
and the returned binding list is a first part followed by a second part.  The
identities (role, condition) of the first part form a subsequence of those of
the input bindings, so the retained bindings stand in their original relative
order.  The second part holds the synthesized bindings: one binding with the
single new member for each role of the add delta, in iteration order, for which
the input has no binding with that role and the condition of the delta. -/
theorem ChangeBindings_output_order (p : Policy) (toAdd toRemove : Option PolicyDelta)
    (q : Policy) (hres : ChangeBindings p toAdd toRemove = some (true, q)) :
    ∃ a, toAdd = some a ∧ ∃ ret syn, q.Bindings = ret ++ syn ∧
      List.Sublist (ret.map bindingKey) (p.Bindings.map bindingKey) ∧
      syn = (a.Roles.elems.filter (fun r => !p.Bindings.any (hasKey r a.Condition))).map
        (fun r => ⟨[ServiceAccountMemberTmpl a.Email], r, a.Condition⟩) := by
  cases toAdd with
  | none =>
    cases toRemove with
    | none =>
      rw [ChangeBindings_none_none] at hres
      injection hres with hres
      injection hres with h1 h2
      exact absurd h1 (by decide)
    | some r =>
      rw [ChangeBindings_removeOnly] at hres
      split at hres
      · exact absurd hres (by simp)
      · injection hres with hres
        injection hres with h1 h2
        exact absurd h1 (by decide)
  | some a =>
    rw [ChangeBindings_some] at hres
    injection hres with hres
    split at hres
    · injection hres with h1 h2
      subst h2
      refine ⟨a, rfl, kept a toRemove p.Bindings, synthesized a p.Bindings, rfl,
        kept_keys_sublist a toRemove p.Bindings, ?_⟩
      unfold synthesized
      have hf : a.Roles.elems.filter (needsFresh a p.Bindings) =
          a.Roles.elems.filter (fun r => !p.Bindings.any (hasKey r a.Condition)) := by
        apply List.filter_congr
        intro r hr
        exact needsFresh_eq_not_any a p.Bindings r hr
      rw [hf]
      rfl
    · injection hres with h1 h2
      exact absurd h1 (by decide)

/-- C15 at the scenario policy: the member `a@x.iam` of `roles/editor` is
exchanged for `b@x.iam` and `roles/viewer` is new. -/
theorem ChangeBindings_output_order_witness :
    ChangeBindings editorPolicy
        (some ⟨⟨["roles/viewer", "roles/editor"], by decide⟩, "b@x.iam", none⟩)
        (some ⟨StringSet.single "roles/editor", "a@x.iam", none⟩) =
        some (true, ⟨[⟨["serviceAccount:b@x.iam"], "roles/editor", none⟩,
          ⟨["serviceAccount:b@x.iam"], "roles/viewer", none⟩], "E1", 0⟩) ∧
      ∃ a, some (⟨⟨["roles/viewer", "roles/editor"], by decide⟩, "b@x.iam", none⟩ : PolicyDelta) =
          some a ∧
        ∃ ret syn, (⟨[⟨["serviceAccount:b@x.iam"], "roles/editor", none⟩,
            ⟨["serviceAccount:b@x.iam"], "roles/viewer", none⟩], "E1", 0⟩ : Policy).Bindings =
            ret ++ syn ∧
          List.Sublist (ret.map bindingKey) (editorPolicy.Bindings.map bindingKey) ∧
          syn = (a.Roles.elems.filter
              (fun r => !editorPolicy.Bindings.any (hasKey r a.Condition))).map
            (fun r => ⟨[ServiceAccountMemberTmpl a.Email], r, a.Condition⟩) :=
  ⟨by decide,
    ChangeBindings_output_order editorPolicy
      (some ⟨⟨["roles/viewer", "roles/editor"], by decide⟩, "b@x.iam", none⟩)
      (some ⟨StringSet.single "roles/editor", "a@x.iam", none⟩)
      ⟨[⟨["serviceAccount:b@x.iam"], "roles/editor", none⟩,
        ⟨["serviceAccount:b@x.iam"], "roles/viewer", none⟩], "E1", 0⟩ (by decide)⟩

/-! ## `BindingExists` -/

/-- C16: `BindingExists` compares the condition pointers.  An entry with role
`roles/viewer` and the condition at address 1 does not make it return true for
a candidate with role `roles/viewer` and the condition at address 2, although
the two conditions have the same title, description and expression; on the
empty list it returns false. -/
theorem BindingExists_misses_equal_condition :
    loadCondition twoCopies (some 1) = loadCondition twoCopies (some 2) ∧
      BindingExists [⟨["serviceAccount:a@x.iam"], "roles/viewer", some 1⟩]
        ⟨["serviceAccount:b@x.iam"], "roles/viewer", some 2⟩ = false ∧
      BindingExists [] ⟨["serviceAccount:b@x.iam"], "roles/viewer", some 2⟩ = false := by
  refine ⟨rfl, ?_, ?_⟩ <;> decide

/-! ## The `changed` flag of `AddBindings` -/

/-- C17: `AddBindings` with a delta `d` always returns, and it returns
`changed = true` exactly when `d` has at least one role, whatever the policy
holds (the member may already be in every matching binding). -/
theorem AddBindings_changed_iff (p : Policy) (d : PolicyDelta) :
    ∃ c q, AddBindings p (some d) = some (c, q) ∧ (c = true ↔ d.Roles.elems ≠ []) := by
  by_cases h : d.Roles.elems = []
  · refine ⟨false, p, ?_, by simp [h]⟩
    unfold AddBindings
    rw [ChangeBindings_some, changedFlag_no_roles d none _ h (by intro r hr; cases hr)]
    rfl
  · obtain ⟨q, hq⟩ := AddBindings_changed p d h
    exact ⟨true, q, hq, by simp [h]⟩

/-! ## The panic of `RemoveBindings` -/

theorem any_role_iff (p : Policy) (d : PolicyDelta) :
    p.Bindings.any (fun b => d.Roles.Includes b.Role) = true ↔
      ∃ b ∈ p.Bindings, b.Role ∈ d.Roles.elems := by
  simp [List.any_eq_true, StringSet.Includes]

/-- C18: the remove-only call `RemoveBindings(d)` ends in the nil-pointer panic
exactly when some binding of `p` has its role in the roles of `d`, and it
returns `changed = false` with `p` itself exactly when no binding has. -/
theorem RemoveBindings_panics_iff (p : Policy) (d : PolicyDelta) :
    (RemoveBindings p (some d) = none ↔ ∃ b ∈ p.Bindings, b.Role ∈ d.Roles.elems) ∧
      (RemoveBindings p (some d) = some (false, p) ↔
        ¬ ∃ b ∈ p.Bindings, b.Role ∈ d.Roles.elems) := by
  unfold RemoveBindings
  rw [ChangeBindings_removeOnly, ← any_role_iff]
  by_cases h : p.Bindings.any (fun b => d.Roles.Includes b.Role) = true
  · simp [h]
  · simp [h]

/-! ## Bindings the add delta does not match -/

theorem emitted_add_miss (a : PolicyDelta) (b : Binding) (h : addHit a b = false)
    (hm : b.Members ≠ []) :
    emitted a none b = [⟨(ToSet b.Members).ToSlice, b.Role, b.Condition⟩] := by
  have hlen : (ToSet b.Members).len > 0 := (ToSet_len_pos _).2 hm
  simp [emitted, membersAfter, membersAfterAdd, h, hlen]

/-- C19: for an add delta `d` with at least one role, `AddBindings` returns
`changed = true` and a policy in which every binding of `p` with members whose
role is not among the roles of `d`, or whose condition is not the condition of
`d`, appears with the same role, the same condition and a duplicate-free member
list with the same elements; and every binding of `p` that `d` matches appears
with the same role and condition and with its previous members together with
`serviceAccount:` followed by the email of `d`. -/
theorem AddBindings_preserves_bindings (p : Policy) (d : PolicyDelta)
    (h : d.Roles.elems ≠ []) :
    ∃ q, AddBindings p (some d) = some (true, q) ∧
      (∀ b ∈ p.Bindings, b.Members ≠ [] →
        ¬ (b.Role ∈ d.Roles.elems ∧ b.Condition = d.Condition) →
        ∃ x ∈ q.Bindings, x.Role = b.Role ∧ x.Condition = b.Condition ∧ x.Members.Nodup ∧
          ∀ m, m ∈ x.Members ↔ m ∈ b.Members) ∧
      (∀ b ∈ p.Bindings, b.Role ∈ d.Roles.elems → b.Condition = d.Condition →
        ∃ x ∈ q.Bindings, x.Role = b.Role ∧ x.Condition = b.Condition ∧ x.Members.Nodup ∧
          ∀ m, m ∈ x.Members ↔ m ∈ b.Members ∨ m = ServiceAccountMemberTmpl d.Email) := by
  obtain ⟨r, hr⟩ := List.exists_mem_of_ne_nil _ h
  refine ⟨⟨kept d none p.Bindings ++ synthesized d p.Bindings, p.Etag, p.Version⟩, ?_, ?_, ?_⟩
  · unfold AddBindings
    rw [ChangeBindings_some, if_pos (changedFlag_add d p.Bindings r hr)]
  · intro b hb hm hnot
    have hmiss : addHit d b = false := by
      rw [← Bool.not_eq_true, addHit_iff]
      intro hh
      exact hnot ⟨hh.1, hh.2.symm⟩
    refine ⟨⟨(ToSet b.Members).ToSlice, b.Role, b.Condition⟩, ?_, rfl, rfl,
      (ToSet b.Members).nodup, fun m => mem_ToSet b.Members m⟩
    apply List.mem_append_left
    rw [mem_kept]
    exact ⟨b, hb, by rw [emitted_add_miss d b hmiss hm]; exact List.mem_singleton.2 rfl⟩
  · intro b hb hrole hcond
    have hit : addHit d b = true := (addHit_iff d b).2 ⟨hrole, hcond.symm⟩
    refine ⟨⟨(membersAfterAdd d b).ToSlice, b.Role, b.Condition⟩, ?_, rfl, rfl,
      (membersAfterAdd d b).nodup, ?_⟩
    · apply List.mem_append_left
      rw [mem_kept]
      exact ⟨b, hb, by rw [emitted_add_hit d b hit]; exact List.mem_singleton.2 rfl⟩
    · intro m
      show m ∈ (membersAfterAdd d b).elems ↔ _
      rw [membersAfterAdd_mem]
      simp [hit]

/-- C19 at a policy with a conditional and an unconditional binding for
`roles/editor`, the add delta naming `roles/editor` without condition. -/
theorem AddBindings_preserves_bindings_witness :
    (⟨StringSet.single "roles/editor", "b@x.iam", none⟩ : PolicyDelta).Roles.elems ≠ [] ∧
      ∃ q, AddBindings ⟨[⟨["serviceAccount:a@x.iam", "serviceAccount:a@x.iam"],
            "roles/editor", some 1⟩, ⟨["serviceAccount:a@x.iam"], "roles/editor", none⟩], "E1", 0⟩
          (some ⟨StringSet.single "roles/editor", "b@x.iam", none⟩) = some (true, q) ∧
        (∀ b ∈ (⟨[⟨["serviceAccount:a@x.iam", "serviceAccount:a@x.iam"],
            "roles/editor", some 1⟩, ⟨["serviceAccount:a@x.iam"], "roles/editor", none⟩],
            "E1", 0⟩ : Policy).Bindings, b.Members ≠ [] →
          ¬ (b.Role ∈ (⟨StringSet.single "roles/editor", "b@x.iam", none⟩ :
              PolicyDelta).Roles.elems ∧
            b.Condition = (⟨StringSet.single "roles/editor", "b@x.iam", none⟩ :
              PolicyDelta).Condition) →
          ∃ x ∈ q.Bindings, x.Role = b.Role ∧ x.Condition = b.Condition ∧ x.Members.Nodup ∧
            ∀ m, m ∈ x.Members ↔ m ∈ b.Members) ∧
        (∀ b ∈ (⟨[⟨["serviceAccount:a@x.iam", "serviceAccount:a@x.iam"],
            "roles/editor", some 1⟩, ⟨["serviceAccount:a@x.iam"], "roles/editor", none⟩],
            "E1", 0⟩ : Policy).Bindings,
          b.Role ∈ (⟨StringSet.single "roles/editor", "b@x.iam", none⟩ :
              PolicyDelta).Roles.elems →
          b.Condition = (⟨StringSet.single "roles/editor", "b@x.iam", none⟩ :
              PolicyDelta).Condition →
          ∃ x ∈ q.Bindings, x.Role = b.Role ∧ x.Condition = b.Condition ∧ x.Members.Nodup ∧
            ∀ m, m ∈ x.Members ↔
              m ∈ b.Members ∨ m = ServiceAccountMemberTmpl
                (⟨StringSet.single "roles/editor", "b@x.iam", none⟩ : PolicyDelta).Email) :=
  ⟨by decide,
    AddBindings_preserves_bindings
      ⟨[⟨["serviceAccount:a@x.iam", "serviceAccount:a@x.iam"], "roles/editor", some 1⟩,
        ⟨["serviceAccount:a@x.iam"], "roles/editor", none⟩], "E1", 0⟩
      ⟨StringSet.single "roles/editor", "b@x.iam", none⟩ (by decide)⟩

end Iamutil
